import Mathlib

/-!
Shallow embedding of the variable-density-spiral designer `vds.cpp`
(functions `calcthetadotdot`, `calc_vds`, `calc_traj`).  The C `double`
arithmetic is modelled over `ℝ` (so `x / 0 = 0` and float rounding is the
identity), the `int` counters and loop bounds over `ℕ`.  The `fov` buffer is
modelled as a function `ℕ → ℝ` read on indices `< numfov`, and the gradient
buffers handed to `calc_traj` as functions `ℕ → ℝ` read on indices `< ngrad`.
-/

namespace VDS

noncomputable section

open Real

/-- The source constant `#define GAMMA 4258.0` (Hz/G). -/
def GAMMA : ℝ := 4258.0

/-- The source constant `#define PI 3.141592` (note: not the mathematical π). -/
def PI : ℝ := 3.141592

/-- Inputs of `calcthetadotdot` that are fixed during one design call:
`slewmax, gradmax, Tgsample, Tdsample, Ninterleaves, fov, numfov`. -/
structure VdsIn where
  slewmax : ℝ
  gradmax : ℝ
  Tgsample : ℝ
  Tdsample : ℝ
  Ninterleaves : ℕ
  fov : ℕ → ℝ
  numfov : ℕ

/-- The loop `for (count=0; count < numfov; count++) fovval += fov[count]*pow(kr,count)`
(with `fovval` initialised to `0`). -/
def fovval (P : VdsIn) (kr : ℝ) : ℝ :=
  ∑ c ∈ Finset.range P.numfov, P.fov c * kr ^ c

/-- The branch `if (count > 0) dfovdrval += count*fov[count]*pow(kr,count-1)`
of the same loop (with `dfovdrval` initialised to `0`). -/
def dfovdrval (P : VdsIn) (kr : ℝ) : ℝ :=
  ∑ c ∈ Finset.range P.numfov, if 0 < c then (c : ℝ) * P.fov c * kr ^ (c - 1) else 0

/-- `gmaxfov = 1/GAMMA / fovval / Tdsample`. -/
def gmaxfov (P : VdsIn) (kr : ℝ) : ℝ :=
  1 / GAMMA / fovval P kr / P.Tdsample

/-- The local clamp `if (gradmax > gmaxfov) gradmax = gmaxfov`. -/
def gradmaxEff (P : VdsIn) (kr : ℝ) : ℝ :=
  if P.gradmax > gmaxfov P kr then gmaxfov P kr else P.gradmax

/-- `maxkrdot = sqrt(pow(GAMMA*gradmax,2) / (1+pow(2*PI*fovval*kr/Ninterleaves,2)))`,
with `gradmax` the clamped value. -/
def maxkrdot (P : VdsIn) (kr : ℝ) : ℝ :=
  Real.sqrt ((GAMMA * gradmaxEff P kr) ^ 2 /
    (1 + (2 * PI * fovval P kr * kr / P.Ninterleaves) ^ 2))

/-- `tpf = 2*PI*fovval/Ninterleaves`. -/
def tpf (P : VdsIn) (kr : ℝ) : ℝ :=
  2 * PI * fovval P kr / P.Ninterleaves

/-- `tpfsq = pow(tpf,2)`. -/
def tpfsq (P : VdsIn) (kr : ℝ) : ℝ :=
  (tpf P kr) ^ 2

/-- `qdfA = 1+tpfsq*kr*kr`. -/
def qdfA (P : VdsIn) (kr : ℝ) : ℝ :=
  1 + tpfsq P kr * kr * kr

/-- `qdfB = 2*tpfsq*kr*krdot*krdot + 2*tpfsq/fovval*dfovdrval*kr*kr*krdot*krdot`. -/
def qdfB (P : VdsIn) (kr krdot : ℝ) : ℝ :=
  2 * tpfsq P kr * kr * krdot * krdot +
    2 * tpfsq P kr / fovval P kr * dfovdrval P kr * kr * kr * krdot * krdot

/-- `qdfC = pow(tpfsq*kr*krdot*krdot,2) + 4*tpfsq*pow(krdot,4) +
pow(tpf*dfovdrval/fovval*kr*krdot*krdot,2) + 4*tpfsq*dfovdrval/fovval*kr*pow(krdot,4)
- pow(GAMMA*slewmax,2)`. -/
def qdfC (P : VdsIn) (kr krdot : ℝ) : ℝ :=
  (tpfsq P kr * kr * krdot * krdot) ^ 2 + 4 * tpfsq P kr * krdot ^ 4 +
    (tpf P kr * dfovdrval P kr / fovval P kr * kr * krdot * krdot) ^ 2 +
    4 * tpfsq P kr * dfovdrval P kr / fovval P kr * kr * krdot ^ 4 -
    (GAMMA * P.slewmax) ^ 2

/-- `rootparta = -qdfB/(2*qdfA)`. -/
def rootparta (P : VdsIn) (kr krdot : ℝ) : ℝ :=
  -qdfB P kr krdot / (2 * qdfA P kr)

/-- `rootpartb = qdfB*qdfB/(4*qdfA*qdfA) - qdfC/qdfA`. -/
def rootpartb (P : VdsIn) (kr krdot : ℝ) : ℝ :=
  qdfB P kr krdot * qdfB P kr krdot / (4 * qdfA P kr * qdfA P kr) -
    qdfC P kr krdot / qdfA P kr

/-- Output `*krdotdot` of `calcthetadotdot`: the amplitude-limited branch
`(maxkrdot - krdot)/Tgsample` when `krdot > maxkrdot`, otherwise the
slew-limited branch with the negative-discriminant fallback `rootparta`. -/
def krdotdotOf (P : VdsIn) (kr krdot : ℝ) : ℝ :=
  if krdot > maxkrdot P kr then (maxkrdot P kr - krdot) / P.Tgsample
  else if rootpartb P kr krdot < 0 then rootparta P kr krdot
  else rootparta P kr krdot + Real.sqrt (rootpartb P kr krdot)

/-- Output `*thetadotdot` of `calcthetadotdot`:
`tpf*dfovdrval/fovval*krdot*krdot + tpf*(*krdotdot)`. -/
def thetadotdotOf (P : VdsIn) (kr krdot : ℝ) : ℝ :=
  tpf P kr * dfovdrval P kr / fovval P kr * krdot * krdot +
    tpf P kr * krdotdotOf P kr krdot

/-- The (kr, krdot, theta, thetadot) state mutated by the `calc_vds` loops. -/
structure VState where
  kr : ℝ
  krdot : ℝ
  theta : ℝ
  thetadot : ℝ

/-- The all-zero initial state of both `calc_vds` loops. -/
def vdsInit : VState := ⟨0, 0, 0, 0⟩

/-- One iteration body of the `calc_vds` loops: call `calcthetadotdot`, then
the four forward-Euler updates in source order (`thetadot`, `theta`, `krdot`,
`kr`; `theta` uses the updated `thetadot` and `kr` the updated `krdot`). -/
def vdsStep (P : VdsIn) (s : VState) : VState :=
  let tdd := thetadotdotOf P s.kr s.krdot
  let kdd := krdotdotOf P s.kr s.krdot
  let thetadot := s.thetadot + tdd * P.Tgsample
  let theta := s.theta + thetadot * P.Tgsample
  let krdot := s.krdot + kdd * P.Tgsample
  let kr := s.kr + krdot * P.Tgsample
  ⟨kr, krdot, theta, thetadot⟩

/-- The first (counting) loop `while ((kr < krmax) && (gradcount < ngmax))` of
`calc_vds`, with the remaining iteration budget `ngmax - gradcount` as fuel;
returns the number of iterations still performed. -/
def vdsCountAux (P : VdsIn) (krmax : ℝ) : ℕ → VState → ℕ
  | 0, _ => 0
  | fuel + 1, s =>
    if s.kr < krmax then vdsCountAux P krmax fuel (vdsStep P s) + 1 else 0

/-- The value `*numgrad = gradcount` returned by the first loop of `calc_vds`,
started from the all-zero state. -/
def calcVdsNumgrad (P : VdsIn) (krmax : ℝ) (ngmax : ℕ) : ℕ :=
  vdsCountAux P krmax ngmax vdsInit

/-- The second (filling) loop of `calc_vds`: the same guard, state and
update, additionally emitting at every iteration the gradient sample
`((1/GAMMA/Tgsample)*(kx-lastkx), (1/GAMMA/Tgsample)*(ky-lastky))`
with `kx = kr*cos(theta)`, `ky = kr*sin(theta)` taken after the update. -/
def vdsFillAux (P : VdsIn) (krmax : ℝ) : ℕ → VState → ℝ × ℝ → List (ℝ × ℝ)
  | 0, _, _ => []
  | fuel + 1, s, lastk =>
    if s.kr < krmax then
      let s' := vdsStep P s
      let kx := s'.kr * Real.cos s'.theta
      let ky := s'.kr * Real.sin s'.theta
      (1 / GAMMA / P.Tgsample * (kx - lastk.1), 1 / GAMMA / P.Tgsample * (ky - lastk.2)) ::
        vdsFillAux P krmax fuel s' (kx, ky)
    else []

/-- The gradient waveform `(xgrad[i], ygrad[i])` written by the second loop of
`calc_vds`, started from the all-zero state with `lastkx = lastky = 0`. -/
def calcVdsGrad (P : VdsIn) (krmax : ℝ) (ngmax : ℕ) : List (ℝ × ℝ) :=
  vdsFillAux P krmax ngmax vdsInit (0, 0)

/-- C `atan2(y, x)`: the argument of the complex number `x + i*y`. -/
def atan2 (y x : ℝ) : ℝ := Complex.arg ⟨x, y⟩

/-- The gradient angle of `calc_traj`:
`if (xgrad[gradcount] == 0.0) ang_g = PI/2; else ang_g = atan2(ygrad, xgrad)`. -/
def angG (gx gy : ℝ) : ℝ :=
  if gx = 0 then PI / 2 else atan2 gy gx

/-- The trajectory angle of `calc_traj`:
`if (x_tr == 0.0) ang_t = PI/2; else ang_t = atan2(y_tr, x_tr)`. -/
def angT (xtr ytr : ℝ) : ℝ :=
  if xtr = 0 then PI / 2 else atan2 ytr xtr

/-- The running position accumulator of `calc_traj`: at iteration `j` the
value of `x_tr` (resp. `y_tr`) is `Σ_{m<j} GAMMA*grad[m]*Tgsamp`, i.e. the
`if (gradcount > 0) x_tr += GAMMA*xgrad[gradcount-1]*Tgsamp` updates. -/
def trajAcc (grad : ℕ → ℝ) (Tgsamp : ℝ) : ℕ → ℝ
  | 0 => 0
  | j + 1 => trajAcc grad Tgsamp j + GAMMA * grad j * Tgsamp

/-- `rotation = (inter * 2 * PI)/Nints`. -/
def rotationOf (Nints : ℕ) (inter : ℕ) : ℝ :=
  ((inter : ℝ) * 2 * PI) / Nints

/-- The trajectory sample written by `calc_traj` for interleave `inter` at
gradient index `j`:
`x_temp = x_tr*cos(rotation) + y_tr*sin(rotation)`,
`y_temp = -(x_tr*sin(rotation)) + y_tr*cos(rotation)`, each divided by
`krmax` (the `float` truncation of `x_temp`, `y_temp` is modelled as exact). -/
def trajPoint (xg yg : ℕ → ℝ) (Nints : ℕ) (Tgsamp krmax : ℝ) (inter j : ℕ) : ℝ × ℝ :=
  let r := rotationOf Nints inter
  let xtr := trajAcc xg Tgsamp j
  let ytr := trajAcc yg Tgsamp j
  ((xtr * Real.cos r + ytr * Real.sin r) / krmax,
   (-(xtr * Real.sin r) + ytr * Real.cos r) / krmax)

/-- The density-compensation weight written by `calc_traj` at gradient index
`j` (identical for every interleave): `abs_w = sqrt(xg[j]^2 + yg[j]^2)`,
`tp_w = sqrt(pow(sin(ang_g - ang_t),2))`, weight `= abs_w * tp_w`. -/
def trajWeight (xg yg : ℕ → ℝ) (Tgsamp : ℝ) (j : ℕ) : ℝ :=
  let absw := Real.sqrt ((xg j) ^ 2 + (yg j) ^ 2)
  let angg := angG (xg j) (yg j)
  let angt := angT (trajAcc xg Tgsamp j) (trajAcc yg Tgsamp j)
  absw * Real.sqrt ((Real.sin (angg - angt)) ^ 2)

/-- The `x_trajectory`/`y_trajectory` output of `calc_traj`, in write order:
the outer loop over interleaves, the inner loop over gradient samples. -/
def calcTrajPoints (xg yg : ℕ → ℝ) (ngrad Nints : ℕ) (Tgsamp krmax : ℝ) :
    List (ℝ × ℝ) :=
  (List.range Nints).flatMap fun inter =>
    (List.range ngrad).map fun j => trajPoint xg yg Nints Tgsamp krmax inter j

/-- The `weights` output of `calc_traj`, in write order. -/
def calcTrajWeights (xg yg : ℕ → ℝ) (ngrad Nints : ℕ) (Tgsamp : ℝ) : List ℝ :=
  (List.range Nints).flatMap fun _inter =>
    (List.range ngrad).map fun j => trajWeight xg yg Tgsamp j

/-- Rotation by the angle `θ` in the sense used by the `calc_traj` loop:
`(x, y) ↦ (x cos θ + y sin θ, -(x sin θ) + y cos θ)`. -/
def rotPoint (θ : ℝ) (p : ℝ × ℝ) : ℝ × ℝ :=
  (p.1 * Real.cos θ + p.2 * Real.sin θ, -(p.1 * Real.sin θ) + p.2 * Real.cos θ)

/-- Modelled from the claim C1 wording: the algebraically smaller real root of
`qdfA*x^2 + qdfB*x + qdfC = 0`, i.e. `(-qdfB - sqrt(qdfB^2 - 4*qdfA*qdfC))/(2*qdfA)`
(`qdfA ≥ 1`, so this is the root with the minus sign). -/
def smallerRoot (P : VdsIn) (kr krdot : ℝ) : ℝ :=
  (-qdfB P kr krdot - Real.sqrt (qdfB P kr krdot ^ 2 - 4 * qdfA P kr * qdfC P kr krdot)) /
    (2 * qdfA P kr)

/-- Modelled from the claim C4 wording: the gradient angle with the `PI/2`
substitution applied exactly when the gradient vector is the zero vector. -/
def angGspec (gx gy : ℝ) : ℝ :=
  if gx = 0 ∧ gy = 0 then PI / 2 else atan2 gy gx

/-- Concrete `calcthetadotdot` inputs used to exercise the slew-limited
branch at the all-zero state: `slewmax = 1/4258`, `gradmax = 1`,
`Tgsample = Tdsample = 1`, `Ninterleaves = 1`, `fov = [1]`. -/
def vdsP1 : VdsIn := ⟨1 / 4258, 1, 1, 1, 1, fun _ => 1, 1⟩

/-- Concrete `calc_vds` inputs on which the integrated radius sequence
decreases at the second step: `slewmax = 1/4258`, `gradmax = 1`,
`Tgsample = 1`, `Tdsample = 1/425800`, `Ninterleaves = 1`,
`fov = [1/2, 1/2]`. -/
def vdsP6 : VdsIn := ⟨1 / 4258, 1, 1, 1 / 425800, 1, fun _ => 1 / 2, 2⟩

/-- Degenerate concrete inputs with `slewmax = 0` (zero second derivative of
the radius at the all-zero state), used to exhibit a monotone step. -/
def vdsP0 : VdsIn := ⟨0, 0, 1, 1, 1, fun _ => 1, 1⟩

/-- The concrete scenario inputs of the spec: `slewmax = 15000`,
`gradmax = 4`, `Tgsample = Tdsample = 4e-6 = 1/250000`, `Ninterleaves = 16`,
`fov = [24]` (with `krmax = 5` and `ngmax = 50000` passed separately). -/
def vdsP7 : VdsIn := ⟨15000, 4, 1 / 250000, 1 / 250000, 16, fun _ => 24, 1⟩

/-! ### Helper lemmas about the two `calc_vds` loops -/

/-- Both loops share guard and state update, so the filling pass emits one
sample per counting-pass iteration. -/
theorem vdsFillAux_length (P : VdsIn) (krmax : ℝ) :
    ∀ (fuel : ℕ) (s : VState) (lastk : ℝ × ℝ),
      (vdsFillAux P krmax fuel s lastk).length = vdsCountAux P krmax fuel s := by
  intro fuel
  induction fuel with
  | zero => intro s lastk; rfl
  | succ fuel ih =>
    intro s lastk
    by_cases h : s.kr < krmax
    · simp only [vdsFillAux, vdsCountAux, if_pos h, List.length_cons, ih]
    · simp only [vdsFillAux, vdsCountAux, if_neg h, List.length_nil]

/-- The counting loop performs at most `fuel` iterations. -/
theorem vdsCountAux_le (P : VdsIn) (krmax : ℝ) :
    ∀ (fuel : ℕ) (s : VState), vdsCountAux P krmax fuel s ≤ fuel := by
  intro fuel
  induction fuel with
  | zero => intro s; exact Nat.le_refl 0
  | succ fuel ih =>
    intro s
    by_cases h : s.kr < krmax
    · simp only [vdsCountAux, if_pos h]
      exact Nat.succ_le_succ (ih (vdsStep P s))
    · simp only [vdsCountAux, if_neg h]
      exact Nat.zero_le _

/-! ### Claims C2, C3, C5 -/

/-- C2: for every input, the sample count reached by the first (counting) loop
of `calc_vds` equals the number of samples written by the second (filling)
loop: both loops, started from the identical all-zero state over identical
inputs, run the same number of iterations, so the filling pass writes exactly
`numgrad` gradient samples. -/
theorem c2_fill_writes_numgrad_samples (P : VdsIn) (krmax : ℝ) (ngmax : ℕ) :
    (calcVdsGrad P krmax ngmax).length = calcVdsNumgrad P krmax ngmax :=
  vdsFillAux_length P krmax ngmax vdsInit (0, 0)

/-- C3: the integration loop of `calc_vds` terminates (it is a total function
of its fuel) and the returned sample count `numgrad` satisfies
`numgrad ≤ ngmax`. -/
theorem c3_numgrad_le_ngmax (P : VdsIn) (krmax : ℝ) (ngmax : ℕ) :
    calcVdsNumgrad P krmax ngmax ≤ ngmax :=
  vdsCountAux_le P krmax ngmax vdsInit

/-- C5: `calc_vds` returns `numgrad = 0` if and only if `krmax ≤ 0` or
`ngmax ≤ 0`; for every input with `krmax > 0` and `ngmax > 0` it returns at
least one gradient sample. -/
theorem c5_numgrad_zero_iff (P : VdsIn) (krmax : ℝ) (ngmax : ℕ) :
    calcVdsNumgrad P krmax ngmax = 0 ↔ krmax ≤ 0 ∨ ngmax ≤ 0 := by
  cases ngmax with
  | zero => simp [calcVdsNumgrad, vdsCountAux]
  | succ n =>
    by_cases h : (0 : ℝ) < krmax
    · have hi : vdsInit.kr < krmax := by simpa [vdsInit] using h
      simp only [calcVdsNumgrad, vdsCountAux, if_pos hi]
      simp [Nat.succ_ne_zero, not_le.mpr h]
    · have hi : ¬ vdsInit.kr < krmax := by simpa [vdsInit] using h
      simp only [calcVdsNumgrad, vdsCountAux, if_neg hi]
      simp [not_lt.mp h]

/-! ### Helper lemmas about the interleave-major output layout of `calc_traj` -/

/-- The flatMap of `N` rows of `n` entries each has length `N * n`. -/
theorem length_flatMap_rows {α : Type} (f : ℕ → ℕ → α) (n : ℕ) :
    ∀ N : ℕ, ((List.range N).flatMap fun a => (List.range n).map (f a)).length = N * n := by
  intro N
  induction N with
  | zero => simp
  | succ N ih =>
    rw [List.range_succ, List.flatMap_append]
    simp [ih, Nat.succ_mul]

/-- Entry `i * n + j` of the flatMap of `N` rows of `n` entries is row `i`,
column `j`. -/
theorem getElem?_flatMap_rows {α : Type} (f : ℕ → ℕ → α) (n j : ℕ) (hj : j < n) :
    ∀ N i : ℕ, i < N →
      ((List.range N).flatMap fun a => (List.range n).map (f a))[i * n + j]? =
        some (f i j) := by
  intro N
  induction N with
  | zero => intro i hi; exact absurd hi (Nat.not_lt_zero i)
  | succ N ih =>
    intro i hi
    rw [List.range_succ, List.flatMap_append]
    rcases Nat.lt_or_ge i N with h | h
    · have hlen : i * n + j <
          ((List.range N).flatMap fun a => (List.range n).map (f a)).length := by
        rw [length_flatMap_rows]
        calc i * n + j < i * n + n := by omega
          _ = (i + 1) * n := by ring
          _ ≤ N * n := Nat.mul_le_mul_right n h
      rw [List.getElem?_append_left hlen]
      exact ih i h
    · have hiN : i = N := by omega
      subst hiN
      have hlen : ((List.range i).flatMap fun a => (List.range n).map (f a)).length = i * n :=
        length_flatMap_rows f n i
      rw [List.getElem?_append_right (by rw [hlen]; omega)]
      rw [hlen]
      simp only [List.flatMap_cons, List.flatMap_nil, List.append_nil,
        Nat.add_sub_cancel_left, List.getElem?_map, List.getElem?_range hj,
        Option.map_some']

/-! ### Claims C8, C9, C10 -/

/-- C8: for every gradient waveform, every interleave count `Nints`, every
interleave index `i < Nints` and sample index `j < ngrad`, the trajectory
point written by `calc_traj` for interleave `i` at sample `j` equals the
trajectory point of interleave `0` at sample `j` rotated by the angle
`2*PI*i/Nints` about the k-space origin. -/
theorem c8_rotation_symmetry (xg yg : ℕ → ℝ) (ngrad Nints : ℕ) (Tgsamp krmax : ℝ)
    (i j : ℕ) (hi : i < Nints) (hj : j < ngrad) :
    (calcTrajPoints xg yg ngrad Nints Tgsamp krmax)[i * ngrad + j]? =
      Option.map (rotPoint (2 * PI * i / Nints))
        ((calcTrajPoints xg yg ngrad Nints Tgsamp krmax)[j]?) := by
  have h0 : 0 < Nints := Nat.lt_of_le_of_lt (Nat.zero_le i) hi
  have h0j := getElem?_flatMap_rows (trajPoint xg yg Nints Tgsamp krmax) ngrad j hj Nints 0 h0
  rw [Nat.zero_mul, Nat.zero_add] at h0j
  simp only [calcTrajPoints]
  rw [getElem?_flatMap_rows (trajPoint xg yg Nints Tgsamp krmax) ngrad j hj Nints i hi,
    h0j, Option.map_some']
  rw [show 2 * PI * (i : ℝ) / (Nints : ℝ) = ((i : ℝ) * 2 * PI) / (Nints : ℝ) by ring]
  congr 1
  simp only [trajPoint, rotPoint, rotationOf, Nat.cast_zero, zero_mul, zero_div,
    Real.cos_zero, Real.sin_zero, Prod.mk.injEq]
  constructor <;> ring

/-- C8 witness: the rotation symmetry at the concrete input
`ngrad = 1`, `Nints = 2`, `i = 1`, `j = 0`. -/
theorem c8_rotation_symmetry_witness :
    (calcTrajPoints (fun _ => 1) (fun _ => 1) 1 2 1 1)[1 * 1 + 0]? =
      Option.map (rotPoint (2 * PI * ((1 : ℕ) : ℝ) / ((2 : ℕ) : ℝ)))
        ((calcTrajPoints (fun _ => 1) (fun _ => 1) 1 2 1 1)[0]?) :=
  c8_rotation_symmetry (fun _ => 1) (fun _ => 1) 1 2 1 1 1 0 (by decide) (by decide)

/-- C9: every density-compensation weight written by `calc_traj` is
nonnegative, for every input: each weight is a square root times a square
root of a square. -/
theorem c9_weights_nonneg (xg yg : ℕ → ℝ) (ngrad Nints : ℕ) (Tgsamp : ℝ) :
    ∀ w ∈ calcTrajWeights xg yg ngrad Nints Tgsamp, 0 ≤ w := by
  intro w hw
  simp only [calcTrajWeights, List.mem_flatMap, List.mem_map, List.mem_range] at hw
  obtain ⟨a, -, j, -, rfl⟩ := hw
  unfold trajWeight
  exact mul_nonneg (Real.sqrt_nonneg _) (Real.sqrt_nonneg _)

/-- C9 witness: the weight emitted at `ngrad = Nints = 1` for the zero
gradient waveform is nonnegative. -/
theorem c9_weights_nonneg_witness :
    0 ≤ trajWeight (fun _ => 0) (fun _ => 0) 1 0 :=
  c9_weights_nonneg (fun _ => 0) (fun _ => 0) 1 1 1
    (trajWeight (fun _ => 0) (fun _ => 0) 1 0) (by simp [calcTrajWeights])

/-- C10: for every interleave `i < Nints` (given `ngrad ≥ 1`), the first
trajectory sample written by `calc_traj` for that interleave — the entry at
index `i * ngrad` — is exactly `(0, 0)`: the accumulated position is reset to
zero at the start of each interleave, the rotation of the origin is the
origin, and `0/krmax = 0`. -/
theorem c10_first_sample_each_interleave_zero (xg yg : ℕ → ℝ) (ngrad Nints : ℕ)
    (Tgsamp krmax : ℝ) (i : ℕ) (hi : i < Nints) (hn : 0 < ngrad) :
    (calcTrajPoints xg yg ngrad Nints Tgsamp krmax)[i * ngrad]? = some (0, 0) := by
  have h := getElem?_flatMap_rows (trajPoint xg yg Nints Tgsamp krmax) ngrad 0 hn Nints i hi
  rw [Nat.add_zero] at h
  simp only [calcTrajPoints]
  rw [h]
  simp [trajPoint, trajAcc]

/-- C10 witness: at `ngrad = 3`, `Nints = 2`, interleave `1` starts at the
origin. -/
theorem c10_first_sample_each_interleave_zero_witness :
    (calcTrajPoints (fun _ => 1) (fun _ => 2) 3 2 1 5)[1 * 3]? = some (0, 0) :=
  c10_first_sample_each_interleave_zero (fun _ => 1) (fun _ => 2) 3 2 1 5 1
    (by decide) (by decide)

/-! ### Claim C1 -/

/-- C1 counterexample: at the inputs `vdsP1` with state `kr = 0`, `krdot = 0`
the slew-limited branch is taken (`krdot` does not exceed `maxkrdot`), the
solver returns `krdotdot = 1`, but the algebraically smaller real root of
`qdfA*x^2 + qdfB*x + qdfC = 0` is `-1`: the claim that the smaller root is
taken is false. -/
theorem c1_smaller_root_counterexample :
    ¬ (0 : ℝ) > maxkrdot vdsP1 0 ∧ krdotdotOf vdsP1 0 0 = 1 ∧
      smallerRoot vdsP1 0 0 = -1 := by
  have hA : qdfA vdsP1 0 = 1 := by simp [qdfA]
  have hB : qdfB vdsP1 0 0 = 0 := by simp [qdfB]
  have hC : qdfC vdsP1 0 0 = -1 := by
    simp only [qdfC, vdsP1, GAMMA]
    norm_num
  have hbr : ¬ (0 : ℝ) > maxkrdot vdsP1 0 := by
    rw [not_lt]
    exact Real.sqrt_nonneg _
  have hrpa : rootparta vdsP1 0 0 = 0 := by
    simp only [rootparta]
    rw [hB, hA]
    norm_num
  have hrpb : rootpartb vdsP1 0 0 = 1 := by
    simp only [rootpartb]
    rw [hB, hC, hA]
    norm_num
  refine ⟨hbr, ?_, ?_⟩
  · simp only [krdotdotOf]
    rw [if_neg hbr, if_neg (by rw [hrpb]; norm_num), hrpa, hrpb, Real.sqrt_one]
    norm_num
  · simp only [smallerRoot]
    rw [hB, hC, hA]
    rw [show (0 : ℝ) ^ 2 - 4 * 1 * (-1) = 2 ^ 2 by norm_num,
      Real.sqrt_sq (by norm_num : (0 : ℝ) ≤ 2)]
    norm_num

/-- C1 (amended): in the slew-limited branch (taken whenever the current
`krdot` does not exceed `maxkrdot`), the output `krdotdot` equals the
algebraically LARGER real root `(-qdfB + sqrt(qdfB^2-4*qdfA*qdfC))/(2*qdfA)`
of the quadratic whenever the computed discriminant term `rootpartb` is
nonnegative; and when `rootpartb` is negative, `krdotdot` equals the real
part `-qdfB/(2*qdfA)` and the solver still returns a value rather than
failing. -/
theorem c1_krdotdot_larger_root (P : VdsIn) (kr krdot : ℝ)
    (hbr : ¬ krdot > maxkrdot P kr) :
    krdotdotOf P kr krdot =
      if rootpartb P kr krdot < 0 then -qdfB P kr krdot / (2 * qdfA P kr)
      else (-qdfB P kr krdot +
          Real.sqrt (qdfB P kr krdot ^ 2 - 4 * qdfA P kr * qdfC P kr krdot)) /
        (2 * qdfA P kr) := by
  have hA : 0 < qdfA P kr := by
    have h1 : qdfA P kr = 1 + (tpf P kr * kr) ^ 2 := by
      simp only [qdfA, tpfsq]
      ring
    rw [h1]
    positivity
  have hA' : qdfA P kr ≠ 0 := ne_of_gt hA
  simp only [krdotdotOf]
  rw [if_neg hbr]
  by_cases hb : rootpartb P kr krdot < 0
  · rw [if_pos hb, if_pos hb]
    simp only [rootparta]
  · rw [if_neg hb, if_neg hb]
    have hrpb : rootpartb P kr krdot =
        (qdfB P kr krdot ^ 2 - 4 * qdfA P kr * qdfC P kr krdot) / (2 * qdfA P kr) ^ 2 := by
      simp only [rootpartb]
      field_simp
      ring
    have hdisc : 0 ≤ qdfB P kr krdot ^ 2 - 4 * qdfA P kr * qdfC P kr krdot := by
      by_contra hneg
      push_neg at hneg
      have hlt : rootpartb P kr krdot < 0 := by
        rw [hrpb]
        exact div_neg_of_neg_of_pos hneg (by positivity)
      exact hb hlt
    rw [hrpb, Real.sqrt_div hdisc, Real.sqrt_sq (by positivity : (0 : ℝ) ≤ 2 * qdfA P kr)]
    simp only [rootparta]
    rw [div_add_div_same]

/-- C1 witness: the amended root formula evaluated at the concrete inputs
`vdsP1` with state `kr = 0`, `krdot = 0` (slew-limited branch). -/
theorem c1_krdotdot_larger_root_witness :
    krdotdotOf vdsP1 0 0 =
      if rootpartb vdsP1 0 0 < 0 then -qdfB vdsP1 0 0 / (2 * qdfA vdsP1 0)
      else (-qdfB vdsP1 0 0 +
          Real.sqrt (qdfB vdsP1 0 0 ^ 2 - 4 * qdfA vdsP1 0 * qdfC vdsP1 0 0)) /
        (2 * qdfA vdsP1 0) :=
  c1_krdotdot_larger_root vdsP1 0 0 (by rw [not_lt]; exact Real.sqrt_nonneg _)

/-! ### Claim C4 -/

/-- C4 counterexample: for the nonzero gradient vector `(0, -1)` the code
still substitutes `PI/2` (its guard tests only the x-component), while the
angle prescribed by the claim's zero-vector guard is `atan2(-1, 0) = -π/2`,
which differs: the substitution does not happen "exactly when the gradient
vector is the zero vector". -/
theorem c4_zero_vector_guard_counterexample :
    angG 0 (-1) = PI / 2 ∧ angGspec 0 (-1) = -(Real.pi / 2) ∧
      angG 0 (-1) ≠ angGspec 0 (-1) := by
  have h1 : angG 0 (-1) = PI / 2 := by simp [angG]
  have h2 : angGspec 0 (-1) = -(Real.pi / 2) := by
    have hIm : (⟨0, -1⟩ : ℂ) = -Complex.I := by
      apply Complex.ext <;> simp
    simp only [angGspec, atan2]
    rw [if_neg (by norm_num), hIm, Complex.arg_neg_I]
  refine ⟨h1, h2, ?_⟩
  rw [h1, h2]
  intro heq
  simp only [PI] at heq
  linarith [Real.pi_pos]

/-- C4 (amended): in the density-weight computation of `calc_traj`, the angle
of the gradient vector is replaced by the fixed value `PI/2` exactly when the
x-component `xgrad[j]` is zero (regardless of `ygrad[j]`), and the angle of
the trajectory position vector is replaced by `PI/2` exactly when its
x-component `x_tr` is zero (regardless of `y_tr`); otherwise the `atan2`
angle is used, and in all cases the computation proceeds without failing
(both angle functions are total). -/
theorem c4_angle_guard_x_component (gx gy xtr ytr : ℝ) :
    (gx = 0 → angG gx gy = PI / 2) ∧ (gx ≠ 0 → angG gx gy = atan2 gy gx) ∧
      (xtr = 0 → angT xtr ytr = PI / 2) ∧ (xtr ≠ 0 → angT xtr ytr = atan2 ytr xtr) := by
  refine ⟨fun h => ?_, fun h => ?_, fun h => ?_, fun h => ?_⟩ <;>
    simp [angG, angT, h]

/-- C4 witness: the four guard cases evaluated at concrete vectors. -/
theorem c4_angle_guard_x_component_witness :
    angG 0 5 = PI / 2 ∧ angG 1 5 = atan2 5 1 ∧ angT 0 7 = PI / 2 ∧
      angT 1 7 = atan2 7 1 :=
  ⟨(c4_angle_guard_x_component 0 5 0 7).1 rfl,
   (c4_angle_guard_x_component 1 5 0 7).2.1 one_ne_zero,
   (c4_angle_guard_x_component 1 5 0 7).2.2.1 rfl,
   (c4_angle_guard_x_component 1 5 1 7).2.2.2 one_ne_zero⟩

/-! ### Claim C6 -/

/-- C6 counterexample: on the inputs `vdsP6` with `krmax = 10`, `ngmax = 2`
the counting loop runs both iterations, yet the radius visited after the
second integration step is strictly below the radius after the first step
(`kr` goes `0 → 1 → 2 - 3*tpfsq/(2*(1+tpfsq)) < 1`): the visited `kr`
sequence is not non-decreasing for every input. -/
theorem c6_kr_monotone_counterexample :
    calcVdsNumgrad vdsP6 10 2 = 2 ∧
      (vdsStep vdsP6 (vdsStep vdsP6 vdsInit)).kr < (vdsStep vdsP6 vdsInit).kr := by
  -- Step 1, taken at the all-zero state.
  have hN : ((vdsP6.Ninterleaves : ℕ) : ℝ) = 1 := by norm_num [vdsP6]
  have hfov0 : fovval vdsP6 0 = 1 / 2 := by
    simp [fovval, vdsP6, Finset.sum_range_succ]
  have hdfov0 : dfovdrval vdsP6 0 = 1 / 2 := by
    simp [dfovdrval, vdsP6, Finset.sum_range_succ]
  have htpf0 : tpf vdsP6 0 = PI := by
    simp only [tpf]
    rw [hfov0, hN]
    ring
  have hbr0 : ¬ ((0 : ℝ) > maxkrdot vdsP6 0) := by
    rw [not_lt]
    exact Real.sqrt_nonneg _
  have hA0 : qdfA vdsP6 0 = 1 := by simp [qdfA]
  have hB0 : qdfB vdsP6 0 0 = 0 := by simp [qdfB]
  have hC0 : qdfC vdsP6 0 0 = -1 := by
    simp only [qdfC]
    norm_num [GAMMA, vdsP6]
  have hrpa0 : rootparta vdsP6 0 0 = 0 := by
    simp only [rootparta]
    rw [hB0, hA0]
    norm_num
  have hrpb0 : rootpartb vdsP6 0 0 = 1 := by
    simp only [rootpartb]
    rw [hB0, hC0, hA0]
    norm_num
  have hkdd0 : krdotdotOf vdsP6 0 0 = 1 := by
    simp only [krdotdotOf]
    rw [if_neg hbr0, if_neg (by rw [hrpb0]; norm_num), hrpa0, hrpb0, Real.sqrt_one]
    norm_num
  have htdd0 : thetadotdotOf vdsP6 0 0 = PI := by
    simp only [thetadotdotOf]
    rw [hkdd0, htpf0]
    simp
  have hstep1 : vdsStep vdsP6 vdsInit = ⟨1, 1, PI, PI⟩ := by
    have hTg : vdsP6.Tgsample = 1 := rfl
    simp only [vdsStep, vdsInit]
    rw [hTg, hkdd0, htdd0]
    norm_num
  -- Step 2, taken at the state `⟨1, 1, PI, PI⟩`.
  have hfov1 : fovval vdsP6 1 = 1 := by
    simp [fovval, vdsP6, Finset.sum_range_succ]
  have hdfov1 : dfovdrval vdsP6 1 = 1 / 2 := by
    simp [dfovdrval, vdsP6, Finset.sum_range_succ]
  have htpfsq1 : tpfsq vdsP6 1 = 39.478401177856 := by
    simp only [tpfsq, tpf]
    rw [hfov1, hN]
    norm_num [PI]
  have hgm1 : gmaxfov vdsP6 1 = 100 := by
    simp only [gmaxfov]
    rw [hfov1]
    norm_num [GAMMA, vdsP6]
  have hge1 : gradmaxEff vdsP6 1 = 1 := by
    have hg : vdsP6.gradmax = 1 := rfl
    simp only [gradmaxEff]
    rw [hgm1, hg, if_neg (by norm_num)]
  have hbr1 : ¬ ((1 : ℝ) > maxkrdot vdsP6 1) := by
    rw [not_lt]
    simp only [maxkrdot]
    rw [hge1, hfov1, hN]
    apply Real.le_sqrt_of_sq_le
    norm_num [GAMMA, PI]
  have hA1 : qdfA vdsP6 1 = 1 + tpfsq vdsP6 1 := by
    simp only [qdfA]
    ring
  have hB1 : qdfB vdsP6 1 1 = 3 * tpfsq vdsP6 1 := by
    simp only [qdfB]
    rw [hfov1, hdfov1]
    ring
  have hC1 : qdfC vdsP6 1 1 = (tpfsq vdsP6 1) ^ 2 + (25 / 4) * tpfsq vdsP6 1 - 1 := by
    have hGs : (GAMMA * vdsP6.slewmax) ^ 2 = 1 := by norm_num [GAMMA, vdsP6]
    simp only [qdfC, tpfsq]
    rw [hfov1, hdfov1, hGs]
    ring
  have hrpb1 : rootpartb vdsP6 1 1 < 0 := by
    simp only [rootpartb]
    rw [hB1, hC1, hA1, htpfsq1]
    norm_num
  have hrpa1 : rootparta vdsP6 1 1 < -1 := by
    simp only [rootparta]
    rw [hB1, hA1, htpfsq1]
    norm_num
  have hkdd1 : krdotdotOf vdsP6 1 1 = rootparta vdsP6 1 1 := by
    simp only [krdotdotOf]
    rw [if_neg hbr1, if_pos hrpb1]
  constructor
  · -- Both loop iterations are executed.
    have c0 : vdsInit.kr < (10 : ℝ) := by norm_num [vdsInit]
    have c1 : (VState.mk 1 1 PI PI).kr < (10 : ℝ) := by norm_num
    simp only [calcVdsNumgrad]
    rw [show (2 : ℕ) = 0 + 1 + 1 from rfl]
    simp only [vdsCountAux]
    rw [if_pos c0, hstep1, if_pos c1]
  · rw [hstep1]
    have hkr2 : (vdsStep vdsP6 ⟨1, 1, PI, PI⟩).kr =
        1 + (1 + krdotdotOf vdsP6 1 1 * 1) * 1 := rfl
    rw [hkr2, hkdd1]
    have h1 : (VState.mk 1 1 PI PI).kr = 1 := rfl
    rw [h1]
    linarith

/-- C6 (amended): the radius is non-decreasing at every step whose updated
`krdot` is nonnegative (for `Tgsample ≥ 0`); this covers in particular every
amplitude-limited step, but a slew-limited step can drive the updated `krdot`
negative and decrease `kr`, so the visited sequence need not be globally
non-decreasing. -/
theorem c6_kr_step_mono_of_krdot_nonneg (P : VdsIn) (s : VState)
    (hTg : 0 ≤ P.Tgsample) (hkd : 0 ≤ (vdsStep P s).krdot) :
    s.kr ≤ (vdsStep P s).kr := by
  have h : (vdsStep P s).kr = s.kr + (vdsStep P s).krdot * P.Tgsample := rfl
  rw [h]
  have := mul_nonneg hkd hTg
  linarith

/-- C6 witness: from the all-zero state on the inputs `vdsP0` the updated
`krdot` is `0` and the radius does not decrease. -/
theorem c6_kr_step_mono_of_krdot_nonneg_witness :
    vdsInit.kr ≤ (vdsStep vdsP0 vdsInit).kr := by
  have hbr : ¬ ((0 : ℝ) > maxkrdot vdsP0 0) := by
    rw [not_lt]
    exact Real.sqrt_nonneg _
  have hB : qdfB vdsP0 0 0 = 0 := by simp [qdfB]
  have hC : qdfC vdsP0 0 0 = 0 := by simp [qdfC, vdsP0]
  have hrpa : rootparta vdsP0 0 0 = 0 := by
    simp only [rootparta]
    rw [hB]
    simp
  have hrpb : rootpartb vdsP0 0 0 = 0 := by
    simp only [rootpartb]
    rw [hB, hC]
    simp
  have hkdd : krdotdotOf vdsP0 0 0 = 0 := by
    simp only [krdotdotOf]
    rw [if_neg hbr, if_neg (by rw [hrpb]; norm_num), hrpa, hrpb, Real.sqrt_zero]
    norm_num
  apply c6_kr_step_mono_of_krdot_nonneg
  · norm_num [vdsP0]
  · have h : (vdsStep vdsP0 vdsInit).krdot = 0 + krdotdotOf vdsP0 0 0 * 1 := rfl
    rw [h, hkdd]
    norm_num

/-! ### Claim C7: first integration step on the scenario inputs -/

/-- The first integration step of `calc_vds` on the scenario inputs `vdsP7`:
`krdotdot = GAMMA*slewmax = 63870000`, so after one step
`kr = 63870000/250000^2`, `theta = (3*PI)*63870000/250000^2`. -/
theorem vdsStep_vdsP7 :
    vdsStep vdsP7 vdsInit =
      ⟨0.00102192, 255.48, 0.00963136708992, 2407.84177248⟩ := by
  have hN7 : ((vdsP7.Ninterleaves : ℕ) : ℝ) = 16 := by norm_num [vdsP7]
  have hfov : fovval vdsP7 0 = 24 := by simp [fovval, vdsP7]
  have hbr : ¬ ((0 : ℝ) > maxkrdot vdsP7 0) := by
    rw [not_lt]
    exact Real.sqrt_nonneg _
  have hA : qdfA vdsP7 0 = 1 := by simp [qdfA]
  have hB : qdfB vdsP7 0 0 = 0 := by simp [qdfB]
  have hC : qdfC vdsP7 0 0 = -(63870000 : ℝ) ^ 2 := by
    simp only [qdfC]
    norm_num [GAMMA, vdsP7]
  have hrpa : rootparta vdsP7 0 0 = 0 := by
    simp only [rootparta]
    rw [hB, hA]
    norm_num
  have hrpb : rootpartb vdsP7 0 0 = (63870000 : ℝ) ^ 2 := by
    simp only [rootpartb]
    rw [hB, hC, hA]
    norm_num
  have hkdd : krdotdotOf vdsP7 0 0 = 63870000 := by
    simp only [krdotdotOf]
    rw [if_neg hbr, if_neg (by rw [hrpb]; norm_num), hrpa, hrpb,
      Real.sqrt_sq (by norm_num : (0 : ℝ) ≤ 63870000)]
    norm_num
  have htpf : tpf vdsP7 0 = 9.424776 := by
    simp only [tpf]
    rw [hfov, hN7]
    norm_num [PI]
  have htdd : thetadotdotOf vdsP7 0 0 = 9.424776 * 63870000 := by
    simp only [thetadotdotOf]
    rw [hkdd, htpf]
    simp
  have hTg : vdsP7.Tgsample = 1 / 250000 := rfl
  simp only [vdsStep, vdsInit]
  rw [hTg, hkdd, htdd]
  norm_num

/-- One guarded unfolding of the filling loop. -/
theorem vdsFillAux_succ (P : VdsIn) (krmax : ℝ) (fuel : ℕ) (s : VState)
    (lastk : ℝ × ℝ) (h : s.kr < krmax) :
    vdsFillAux P krmax (fuel + 1) s lastk =
      (1 / GAMMA / P.Tgsample * ((vdsStep P s).kr * Real.cos (vdsStep P s).theta - lastk.1),
       1 / GAMMA / P.Tgsample * ((vdsStep P s).kr * Real.sin (vdsStep P s).theta - lastk.2)) ::
        vdsFillAux P krmax fuel (vdsStep P s)
          ((vdsStep P s).kr * Real.cos (vdsStep P s).theta,
           (vdsStep P s).kr * Real.sin (vdsStep P s).theta) := by
  rw [vdsFillAux]
  rw [if_pos h]

/-- The first gradient sample emitted by the filling loop on the scenario
inputs, in closed form. -/
theorem calcVdsGrad_vdsP7_head :
    (calcVdsGrad vdsP7 5 50000)[0]? = some
      (1 / GAMMA / vdsP7.Tgsample * ((0.00102192 : ℝ) * Real.cos 0.00963136708992 - 0),
       1 / GAMMA / vdsP7.Tgsample * ((0.00102192 : ℝ) * Real.sin 0.00963136708992 - 0)) := by
  simp only [calcVdsGrad]
  rw [show (50000 : ℕ) = 49999 + 1 from rfl]
  rw [vdsFillAux_succ vdsP7 5 49999 vdsInit (0, 0)
    (show vdsInit.kr < (5 : ℝ) by norm_num [vdsInit])]
  rw [vdsStep_vdsP7]
  simp

/-- The first step's angle `0.00963136708992` has positive cosine. -/
theorem cos_theta1_vdsP7_pos : 0 < Real.cos 0.00963136708992 := by
  apply Real.cos_pos_of_mem_Ioo
  rw [Set.mem_Ioo]
  constructor
  · linarith [Real.pi_pos]
  · linarith [Real.pi_gt_d6]

/-- The first step's angle `0.00963136708992` has positive sine. -/
theorem sin_theta1_vdsP7_pos : 0 < Real.sin 0.00963136708992 := by
  apply Real.sin_pos_of_pos_of_lt_pi
  · norm_num
  · linarith [Real.pi_gt_d6]

/-- C7 counterexample: for the concrete scenario inputs
(`slewmax = 15000`, `gradmax = 4`, `Tgsample = Tdsample = 4e-6`,
`Ninterleaves = 16`, `fov = [24]`, `krmax = 5`, `ngmax = 50000`) the first
gradient sample written by `calc_vds` is NOT `(0, 0)`: the sample is emitted
only after the first integration step, so it is `1/(GAMMA*Tgsample)` times
the first (nonzero) k-space position. -/
theorem c7_first_gradient_sample_counterexample :
    (calcVdsGrad vdsP7 5 50000)[0]? ≠ some ((0 : ℝ), (0 : ℝ)) := by
  intro hcontra
  rw [calcVdsGrad_vdsP7_head] at hcontra
  simp only [Option.some_inj, Prod.mk.injEq] at hcontra
  obtain ⟨h1, -⟩ := hcontra
  have hTg : vdsP7.Tgsample = 1 / 250000 := rfl
  have hpos : 0 < 1 / GAMMA / vdsP7.Tgsample *
      ((0.00102192 : ℝ) * Real.cos 0.00963136708992 - 0) := by
    apply mul_pos
    · rw [hTg]
      norm_num [GAMMA]
    · rw [sub_zero]
      exact mul_pos (by norm_num) cos_theta1_vdsP7_pos
  exact absurd h1 (ne_of_gt hpos)

/-- C7 (amended): on the scenario inputs `lastkx = lastky = 0` only means
that the first gradient sample equals `1/(GAMMA*Tgsample)` times the first
k-space position reached after one integration step; that sample is not
`(0,0)` — both its components are strictly positive. -/
theorem c7_first_gradient_sample_value :
    ∃ p : ℝ × ℝ, (calcVdsGrad vdsP7 5 50000)[0]? = some p ∧ 0 < p.1 ∧ 0 < p.2 := by
  refine ⟨_, calcVdsGrad_vdsP7_head, ?_, ?_⟩
  · apply mul_pos
    · rw [show vdsP7.Tgsample = 1 / 250000 from rfl]
      norm_num [GAMMA]
    · rw [sub_zero]
      exact mul_pos (by norm_num) cos_theta1_vdsP7_pos
  · apply mul_pos
    · rw [show vdsP7.Tgsample = 1 / 250000 from rfl]
      norm_num [GAMMA]
    · rw [sub_zero]
      exact mul_pos (by norm_num) sin_theta1_vdsP7_pos

end

end VDS
